import Mathlib

/-
Verification of the distribution abstraction layer of the skpro repository.

The development shallowly embeds:
- the evaluation-mode machinery of
  src/skpro/distributions/distribution_base.py
  (class DistributionBase: element-wise decorator, pdf/pmf/cdf dispatch,
  subsetting via __getitem__, constructor mode handling, setMode), and
- the per-cell closed forms of src/skpro/distributions/laplace.py
  (class Laplace: pdf, cdf, ppf, var) and of
  src/skpro/distributions/compose/_iid.py (class IID: _pdf),
then proves or refutes the frozen behavioral claims about them.

Query arrays are modelled as Lists; the mutable cached_index_ selector is
modelled by explicit state passing (each call returns its result together
with the final selector value); Python exceptions are modelled by Except.
-/

namespace Skpro

/-- Embeds the distType Enum of distribution_base.py (lines 16-20). -/
inductive distType where
  | UNDEFINED
  | DISCRETE
  | CONTINUOUS
  | MIXED
deriving DecidableEq

/-- Embeds the Mode Enum of distribution_base.py (lines 22-24). -/
inductive Mode where
  | ELEMENT_WISE
  | BATCH
deriving DecidableEq

/-- Value of the cached_index_ member: either the full slice(None) selector
set by reset(), or the single integer index set inside the element-wise
loop of elementWiseDecorator. -/
inductive Sel where
  | all
  | idx (k : Nat)
deriving DecidableEq

/-- Modelled from the spec: utils.dim (skpro/distributions/utils.py is not
under src/). Per the spec, the decorator receives "the query array of n
points"; dim returns that number n of query points. -/
def dim {α : Type} (X : List α) : Nat :=
  X.length

/-- Embeds the strided-slice read X[slice(index, n_, step)] used at lines
250-251 of distribution_base.py (with n_ = dim X, so the slice stop is the
full length): elements at positions index, index+step, index+2*step, ....
Fuel-based recursion on a suffix; the fuel is instantiated with the list
length, which always suffices. -/
def pyStrideAux {α : Type} (step : Nat) : Nat → List α → List α
  | _, [] => []
  | 0, _ :: _ => []
  | fuel + 1, x :: xs => x :: pyStrideAux step fuel (xs.drop (step - 1))

/-- The Python slice read X[start::step] (stop equal to the length). -/
def pyStride {α : Type} (X : List α) (start step : Nat) : List α :=
  pyStrideAux step X.length (X.drop start)

/-- Embeds the strided-slice assignment result[slice(start, n, step)] = vals
of line 252 of distribution_base.py: position start + j*step receives
vals[j], all other positions are unchanged. -/
def assignStrideAux {α : Type} (start step : Nat) (vals : List α) :
    Nat → List α → List α
  | _, [] => []
  | i, r :: rs =>
      (if i % step = start then vals.getD ((i - start) / step) r else r) ::
        assignStrideAux start step vals (i + 1) rs

/-- The slice assignment res[start::step] = vals. -/
def assignStride {α : Type} (res : List α) (start step : Nat) (vals : List α) :
    List α :=
  assignStrideAux start step vals 0 res

/-- Embeds the loop of elementWiseDecorator.wrapper (lines 248-254 of
distribution_base.py).  For index = idx, idx+1, ... while index < step:
the cached selector is set to the integer index, the implied function fn is
evaluated on the strided sub-sample X[index::step], and its result is
scattered back into the accumulator.  An exception from fn propagates with
the selector still set to the failing index (the source has no try/finally).
After a normally completed loop, self.reset() sets the selector to
slice(None).  The first Nat argument is the remaining iteration count. -/
def ewLoop {α : Type} (fn : Sel → List α → Except String (List α))
    (X : List α) (step : Nat) :
    Nat → Nat → List α → Except String (List α) × Sel
  | 0, _, res => (Except.ok res, Sel.all)
  | rem + 1, idx, res =>
      match fn (Sel.idx idx) (pyStride X idx step) with
      | Except.error e => (Except.error e, Sel.idx idx)
      | Except.ok vals => ewLoop fn X step rem (idx + 1) (assignStride res idx step vals)

/-- Embeds wrapper of elementWiseDecorator (lines 238-256 of
distribution_base.py).  If n = 1 the implied function is called directly
with the current selector untouched; otherwise the loop runs with
step = min(vectorSize, n) over the accumulator [0]*n (modelled as
replicate n default; every position is overwritten before the loop ends),
and the selector is reset afterwards.  Returns the result together with
the final value of the cached_index_ selector. -/
def elementWiseE {α : Type} [Inhabited α]
    (fn : Sel → List α → Except String (List α)) (m : Nat)
    (X : List α) (cached0 : Sel) : Except String (List α) × Sel :=
  let n := dim X
  if n = 1 then (fn cached0 X, cached0)
  else ewLoop fn X (min m n) (min m n) 0 (List.replicate n default)

/-- Embeds the state of class DistributionBase (distribution_base.py) that
the claims depend on: distribution type, vector size, evaluation mode, the
cached_index_ selector, the support object (modelled by its inSupport
predicate; skpro/distributions/component/support.py is not under src/ and
per the spec a SupportPredicate answers whether a point is inside the
admissible domain), and the three implied methods of DPQRMixin as supplied
by a concrete subclass (each reads the current selector, as
get_cached_param does). -/
structure DistributionBase (α : Type) where
  dtype_ : distType
  vectorSize_ : Nat
  mode_ : Mode
  cached_index_ : Sel
  support_ : List α → Bool
  pdf_imp : Sel → List α → Except String (List α)
  pmf_imp : Sel → List α → Except String (List α)
  cdf_imp : Sel → List α → Except String (List α)

/-- Embeds DistributionBase.reset (lines 114-115). -/
def DistributionBase.reset {α : Type} (d : DistributionBase α) :
    DistributionBase α :=
  { d with cached_index_ := Sel.all }

/-- Embeds DistributionBase.setMode (lines 121-134): a value that is not a
Mode member (modelled by none) raises ValueError. -/
def DistributionBase.setMode {α : Type} (d : DistributionBase α)
    (mode : Option Mode) : Except String (DistributionBase α) :=
  match mode with
  | some mo => Except.ok { d with mode_ := mo }
  | none => Except.error "unrecognize distribution mode"

/-- Embeds the mode handling of DistributionBase.__init__ (lines 84-87):
a value that is not a Mode member (modelled by none) is silently replaced
by Mode.ELEMENT_WISE. -/
def initMode (mode : Option Mode) : Mode :=
  match mode with
  | some mo => mo
  | none => Mode.ELEMENT_WISE

/-- Embeds DistributionBase.__init__ (lines 69-89) together with
__checkInit (lines 159-165) as called through _register: the constructor
sets cached_index_ to slice(None), coerces a non-Mode mode argument to
ELEMENT_WISE without raising, and raises only when vectorSize or
variateSize is below 1.  Returns the initial selector and mode. -/
def distInit (vectorSize variateSize : Nat) (mode : Option Mode) :
    Except String (Sel × Mode) :=
  if vectorSize < 1 then
    Except.error "vectorSize attribute must be none zero before parameters registration"
  else if variateSize < 1 then
    Except.error "variateSize attribute must be none zero before parameters registration"
  else
    Except.ok (Sel.all, initMode mode)

/-- Embeds DistributionBase.pdf (lines 306-337): the distType gate, the
support gate, then dispatch on the evaluation mode.  Returns the result
together with the final value of the cached_index_ selector. -/
def DistributionBase.pdf {α : Type} [Inhabited α] (d : DistributionBase α)
    (X : List α) : Except String (List α) × Sel :=
  if d.dtype_ = distType.DISCRETE ∨ d.dtype_ = distType.UNDEFINED then
    (Except.error "pdf function not permitted for non continuous distribution",
      d.cached_index_)
  else if d.support_ X = false then
    (Except.error "X is outside permitted support", d.cached_index_)
  else if d.mode_ = Mode.ELEMENT_WISE then
    elementWiseE d.pdf_imp d.vectorSize_ X d.cached_index_
  else
    (d.pdf_imp d.cached_index_ X, d.cached_index_)

/-- Embeds DistributionBase.pmf (lines 340-370): same shape as pdf with the
dual distType gate. -/
def DistributionBase.pmf {α : Type} [Inhabited α] (d : DistributionBase α)
    (X : List α) : Except String (List α) × Sel :=
  if d.dtype_ = distType.CONTINUOUS ∨ d.dtype_ = distType.UNDEFINED then
    (Except.error "pmf function not permitted for non continuous distribution",
      d.cached_index_)
  else if d.support_ X = false then
    (Except.error "X is outside permitted support", d.cached_index_)
  else if d.mode_ = Mode.ELEMENT_WISE then
    elementWiseE d.pmf_imp d.vectorSize_ X d.cached_index_
  else
    (d.pmf_imp d.cached_index_ X, d.cached_index_)

/-- Embeds DistributionBase.cdf (lines 373-396): no distType gate and no
support gate, only the mode dispatch. -/
def DistributionBase.cdf {α : Type} [Inhabited α] (d : DistributionBase α)
    (X : List α) : Except String (List α) × Sel :=
  if d.mode_ = Mode.ELEMENT_WISE then
    elementWiseE d.cdf_imp d.vectorSize_ X d.cached_index_
  else
    (d.cdf_imp d.cached_index_ X, d.cached_index_)

/-- The selector argument of __getitem__ (lines 263-297 of
distribution_base.py): None, a string (capability-mode keyword), an
integer position, or a slice with integer start and stop. -/
inductive PySel where
  | noneIdx
  | strIdx (s : String)
  | intIdx (k : Int)
  | sliceIdx (start stop : Int)
deriving DecidableEq

/-- The parsed selection of __getitem__: None and strings collapse to the
full slice(None). -/
inductive Selection where
  | full
  | intSel (k : Int)
  | sliceSel (start stop : Int)
deriving DecidableEq

/-- Python sequence indexing l[k]: a negative k counts from the end, an
index out of range raises IndexError.  Used to model the parameter lookup
performed for an integer selection. -/
def pyIndex {α : Type} (l : List α) (k : Int) : Except String α :=
  let pos : Int := if k < 0 then (l.length : Int) + k else k
  if pos < 0 then Except.error "list index out of range"
  else
    match l[pos.toNat]? with
    | some v => Except.ok v
    | none => Except.error "list index out of range"

/-- Clamp one bound of a Python slice to [0, len]. -/
def pyBound (len : Nat) (i : Int) : Nat :=
  if i < 0 then ((len : Int) + i).toNat else min i.toNat len

/-- Python list slicing l[a:b]: bounds are clamped, never raising. -/
def pySliceList {α : Type} (l : List α) (a b : Int) : List α :=
  (l.drop (pyBound l.length a)).take (pyBound l.length b - pyBound l.length a)

/-- Except-valued map over a list, propagating the first error. -/
def mapExcept {α β : Type} (f : α → Except String β) : List α → Except String (List β)
  | [] => Except.ok []
  | x :: xs =>
      match f x with
      | Except.error e => Except.error e
      | Except.ok y =>
          match mapExcept f xs with
          | Except.error e => Except.error e
          | Except.ok ys => Except.ok (y :: ys)

/-- Modelled from the spec: parametersFrame.getSubset
(skpro/distributions/component/parameters_frame.py is not under src/).
Per spec section 4.1 the store returns each registered parameter restricted
to the selector, an index position or slice, with Python sequence
semantics; an integer position yields the scalar parameters of that one
distribution (re-registered as singleton lists by the constructor, cf.
lines 149-156 of distribution_base.py). -/
def getSubset {α : Type} (params : List (List α)) :
    Selection → Except String (List (List α))
  | Selection.full => Except.ok params
  | Selection.intSel k => mapExcept (fun p =>
      match pyIndex p k with
      | Except.error e => Except.error e
      | Except.ok v => Except.ok [v]) params
  | Selection.sliceSel a b => Except.ok (params.map (fun p => pySliceList p a b))

/-- The state of a concrete vectorized distribution that subsetting acts
on: its vector size, its registered parameter lists (paramsFrame_), and the
cached_index_ selector. -/
structure ConcreteDist (α : Type) where
  vectorSize_ : Nat
  params_ : List (List α)
  cached_index_ : Sel
deriving DecidableEq

/-- The vector size the re-invoked constructor infers from the sliced
parameter lists. -/
def newVectorSize {α : Type} (ps : List (List α)) : Nat :=
  (ps.headD []).length

/-- Embeds DistributionBase.__getitem__ (lines 263-297 of
distribution_base.py): a string or None selects the full slice; an integer
selection raises IndexError when it is greater than or equal to len(self)
(nothing rejects negative integers); a slice raises IndexError when its
stop is greater than or equal to len(self); otherwise a replication is
built by re-invoking the constructor on the sliced parameters and reset. -/
def getitem {α : Type} (d : ConcreteDist α) (index : PySel) :
    Except String (ConcreteDist α) :=
  let selection : Selection :=
    match index with
    | PySel.noneIdx => Selection.full
    | PySel.strIdx _ => Selection.full
    | PySel.intIdx k => Selection.intSel k
    | PySel.sliceIdx a b => Selection.sliceSel a b
  if (match selection with
      | Selection.intSel k => decide ((d.vectorSize_ : Int) ≤ k)
      | _ => false) then
    Except.error "Selection is out of bounds"
  else if (match index with
      | PySel.sliceIdx _ b => decide ((d.vectorSize_ : Int) ≤ b)
      | _ => false) then
    Except.error "Selection is out of bounds"
  else
    match getSubset d.params_ selection with
    | Except.error e => Except.error e
    | Except.ok ps =>
        Except.ok { vectorSize_ := newVectorSize ps, params_ := ps,
                    cached_index_ := Sel.all }

/-- Embeds DistributionBase.__len__ (lines 300-301). -/
def ConcreteDist.len {α : Type} (d : ConcreteDist α) : Nat :=
  d.vectorSize_

/-- Embeds the per-cell pdf formula of Laplace.pdf (laplace.py lines
98-103): exp(-abs((x - mu) / scale)) / (2 * scale). -/
noncomputable def laplace_pdf (mu scale x : ℝ) : ℝ :=
  Real.exp (-|(x - mu) / scale|) / (2 * scale)

/-- Embeds the per-cell cdf formula of Laplace.cdf (laplace.py lines
112-118): 0.5 + 0.5 * sign(x - mu) * (1 - exp(-abs((x - mu) / scale))). -/
noncomputable def laplace_cdf (mu scale x : ℝ) : ℝ :=
  0.5 + 0.5 * Real.sign (x - mu) * (1 - Real.exp (-|(x - mu) / scale|))

/-- Embeds the per-cell ppf formula of Laplace.ppf (laplace.py lines
120-125): mu - scale * sign(p - mu) * log(1 - 2 * abs(p - 0.5)).  Note the
sign argument of the source is p - mu, not p - 0.5. -/
noncomputable def laplace_ppf (mu scale p : ℝ) : ℝ :=
  mu - scale * Real.sign (p - mu) * Real.log (1 - 2 * |p - 0.5|)

/-- Embeds the per-cell variance of Laplace.var (laplace.py lines 84-96):
sd_arr = scale / sqrt(2), then the DataFrame is squared. -/
noncomputable def laplace_var (scale : ℝ) : ℝ :=
  (scale / Real.sqrt 2) ^ 2

/-- Embeds the per-cell formula of IID._pdf (_iid.py lines 102-120):
exp(-0.5 * ((x - mu) / sigma) ^ 2) / (sigma * sqrt(2 * pi)) over the
broadcast parameters named mu and sigma. -/
noncomputable def IID_pdf (mu sigma x : ℝ) : ℝ :=
  Real.exp (-(0.5) * ((x - mu) / sigma) ^ 2) / (sigma * Real.sqrt (2 * Real.pi))

section StrideLemmas

variable {α : Type}

/-- Index characterization of the fuel-based strided read: the j-th element
of the strided view of L is the element of L at position j * step. -/
lemma pyStrideAux_getElem? (step : Nat) (hs : 1 ≤ step) :
    ∀ (fuel : Nat) (L : List α) (j : Nat), L.length ≤ fuel →
      (pyStrideAux step fuel L)[j]? = L[j * step]? := by
  intro fuel
  induction fuel with
  | zero =>
      intro L j hL
      have : L = [] := List.length_eq_zero.mp (Nat.le_zero.mp hL)
      subst this
      simp [pyStrideAux]
  | succ fuel ih =>
      intro L j hL
      cases L with
      | nil => simp [pyStrideAux]
      | cons x xs =>
          cases j with
          | zero => simp [pyStrideAux]
          | succ j =>
              have hlen : (xs.drop (step - 1)).length ≤ fuel := by
                rw [List.length_drop]
                simp only [List.length_cons] at hL
                omega
              have harith : (step - 1) + j * step + 1 = (j + 1) * step := by
                rw [Nat.succ_mul]
                omega
              calc (pyStrideAux step (fuel + 1) (x :: xs))[j + 1]?
                  = (pyStrideAux step fuel (xs.drop (step - 1)))[j]? := by
                    simp [pyStrideAux]
                _ = (xs.drop (step - 1))[j * step]? := ih _ j hlen
                _ = xs[(step - 1) + j * step]? := List.getElem?_drop xs (step - 1) (j * step)
                _ = (x :: xs)[(step - 1) + j * step + 1]? := (List.getElem?_cons_succ).symm
                _ = (x :: xs)[(j + 1) * step]? := by rw [harith]

/-- The j-th element of X[start::step] is X[start + j * step]. -/
lemma pyStride_getElem? (X : List α) (start step j : Nat) (hs : 1 ≤ step) :
    (pyStride X start step)[j]? = X[start + j * step]? := by
  rw [pyStride, pyStrideAux_getElem? step hs X.length (X.drop start) j
    (by rw [List.length_drop]; omega), List.getElem?_drop]

/-- Index characterization of the strided scatter assignment, offset form. -/
lemma assignStrideAux_getElem? (start step : Nat) (vals : List α) :
    ∀ (res : List α) (i k : Nat),
      (assignStrideAux start step vals i res)[k]? =
        (res[k]?).map (fun r =>
          if (i + k) % step = start then vals.getD ((i + k - start) / step) r else r) := by
  intro res
  induction res with
  | nil => intro i k; simp [assignStrideAux]
  | cons r rs ih =>
      intro i k
      cases k with
      | zero => simp [assignStrideAux]
      | succ k =>
          have harith : i + 1 + k = i + (k + 1) := by omega
          simp only [assignStrideAux, List.getElem?_cons_succ, ih (i + 1) k, harith]

/-- The scatter assignment preserves the list length. -/
lemma assignStrideAux_length (start step : Nat) (vals : List α) :
    ∀ (res : List α) (i : Nat),
      (assignStrideAux start step vals i res).length = res.length := by
  intro res
  induction res with
  | nil => intro i; simp [assignStrideAux]
  | cons r rs ih => intro i; simp [assignStrideAux, ih]

/-- Combined read-modify characterization of one loop iteration: writing the
image of the strided read back through the strided assignment updates
exactly the positions congruent to start modulo step. -/
lemma assign_pyStride_getElem? (X res : List α) (f : α → α) (start step i : Nat)
    (hlen : res.length = X.length) (hs : 1 ≤ step) (hst : start < step) :
    (assignStride res start step ((pyStride X start step).map f))[i]? =
      if i % step = start then (X[i]?).map f else res[i]? := by
  rw [assignStride, assignStrideAux_getElem?]
  simp only [Nat.zero_add]
  cases hres : res[i]? with
  | none =>
      have hXi : X[i]? = none := by
        rw [List.getElem?_eq_none_iff] at hres ⊢
        omega
      rw [hXi]
      split <;> simp
  | some r =>
      have hi : i < res.length := (List.getElem?_eq_some.mp hres).1
      have hXi : ∃ xv, X[i]? = some xv := by
        have : i < X.length := by omega
        exact ⟨X[i], List.getElem?_eq_some.mpr ⟨this, rfl⟩⟩
      obtain ⟨xv, hXv⟩ := hXi
      by_cases h : i % step = start
      · have hstart_le : start ≤ i := by
          by_contra hlt
          push_neg at hlt
          have hi_lt : i < step := lt_trans hlt hst
          rw [Nat.mod_eq_of_lt hi_lt] at h
          omega
        have hq : step * (i / step) + start = i := by
          conv_rhs => rw [← Nat.div_add_mod i step]
          rw [h]
        have hsub : i - start = step * (i / step) := by omega
        have hdiv : (i - start) / step = i / step := by
          rw [hsub, Nat.mul_div_cancel_left _ (by omega : 0 < step)]
        have hval : ((pyStride X start step).map f)[(i - start) / step]? = some (f xv) := by
          rw [List.getElem?_map, pyStride_getElem? X start step _ hs, hdiv]
          have : start + (i / step) * step = i := by
            rw [Nat.mul_comm]
            omega
          rw [this, hXv]
          rfl
        rw [if_pos h, hXv]
        simp [h, List.getD_eq_getElem?_getD, hval]
      · rw [if_neg h]
        simp [h]

end StrideLemmas

section LoopLemmas

variable {α : Type}

/-- Specification list for the state of the element-wise accumulator after
the loop iterations idx, idx+1, ..., step-1 have run: positions whose
residue modulo step is at least idx hold the pointwise evaluation of the
corresponding distribution, the remaining positions still hold res. -/
def ewMerge [Inhabited α] (g : Nat → α → α) (X res : List α) (step idx : Nat) :
    List α :=
  (List.range X.length).map (fun i =>
    if idx ≤ i % step then g (i % step) (X.getD i default) else res.getD i default)

/-- Index characterization of ewMerge. -/
lemma ewMerge_getElem? [Inhabited α] (g : Nat → α → α) (X res : List α)
    (step idx i : Nat) :
    (ewMerge g X res step idx)[i]? =
      if i < X.length then
        some (if idx ≤ i % step then g (i % step) (X.getD i default)
              else res.getD i default)
      else none := by
  rw [ewMerge]
  by_cases h : i < X.length
  · rw [List.getElem?_map, List.getElem?_range h, if_pos h]
    rfl
  · rw [if_neg h, List.getElem?_eq_none_iff]
    simp
    omega

/-- ewMerge has the length of X. -/
lemma ewMerge_length [Inhabited α] (g : Nat → α → α) (X res : List α)
    (step idx : Nat) : (ewMerge g X res step idx).length = X.length := by
  simp [ewMerge]

/-- Main loop invariant: if the implied function evaluates pointwise
(selector k maps each sample through g k), the loop from iteration idx on
completes normally, resets the selector, and fills every position whose
residue is at least idx with the pointwise value of its distribution. -/
lemma ewLoop_spec [Inhabited α] (fn : Sel → List α → Except String (List α))
    (g : Nat → α → α) (X : List α) (step : Nat) (hs : 1 ≤ step)
    (hg : ∀ k xs, fn (Sel.idx k) xs = Except.ok (xs.map (g k))) :
    ∀ (rem idx : Nat) (res : List α), idx + rem = step → res.length = X.length →
      ewLoop fn X step rem idx res = (Except.ok (ewMerge g X res step idx), Sel.all) := by
  intro rem
  induction rem with
  | zero =>
      intro idx res hsum hlen
      rw [ewLoop]
      refine congrArg (fun l => (Except.ok l, Sel.all)) ?_
      refine List.ext_getElem? fun i => ?_
      rw [ewMerge_getElem?]
      by_cases h : i < X.length
      · rw [if_pos h]
        have hmod : ¬ idx ≤ i % step := by
          have := Nat.mod_lt i (show 0 < step by omega)
          omega
        rw [if_neg hmod, List.getD_eq_getElem?_getD]
        cases hres : res[i]? with
        | none =>
            rw [List.getElem?_eq_none_iff] at hres
            omega
        | some r => rfl
      · rw [if_neg h, List.getElem?_eq_none_iff]
        omega
  | succ rem ih =>
      intro idx res hsum hlen
      have hidx : idx < step := by omega
      rw [ewLoop, hg idx (pyStride X idx step)]
      have hlen' : (assignStride res idx step ((pyStride X idx step).map (g idx))).length
          = X.length := by
        rw [assignStride, assignStrideAux_length]
        exact hlen
      show ewLoop fn X step rem (idx + 1)
          (assignStride res idx step ((pyStride X idx step).map (g idx))) =
        (Except.ok (ewMerge g X res step idx), Sel.all)
      rw [ih (idx + 1) _ (by omega) hlen']
      refine congrArg (fun l => (Except.ok l, Sel.all)) ?_
      refine List.ext_getElem? fun i => ?_
      rw [ewMerge_getElem?, ewMerge_getElem?]
      by_cases h : i < X.length
      · rw [if_pos h, if_pos h]
        have hassign := assign_pyStride_getElem? X res (g idx) idx step i hlen hs hidx
        rcases Nat.lt_trichotomy (i % step) idx with hlt | heq | hgt
        · have h1 : ¬ idx + 1 ≤ i % step := by omega
          have h2 : ¬ idx ≤ i % step := by omega
          rw [if_neg h1, if_neg h2]
          have hne : ¬ i % step = idx := by omega
          rw [if_neg hne] at hassign
          rw [List.getD_eq_getElem?_getD, List.getD_eq_getElem?_getD, hassign]
        · have h1 : ¬ idx + 1 ≤ i % step := by omega
          have h2 : idx ≤ i % step := by omega
          rw [if_neg h1, if_pos h2]
          rw [if_pos heq] at hassign
          have hXi : X[i]? = some X[i] := List.getElem?_eq_some.mpr ⟨h, rfl⟩
          rw [List.getD_eq_getElem?_getD, hassign, hXi]
          have hXd : X.getD i default = X[i] := by
            rw [List.getD_eq_getElem?_getD, hXi]
            rfl
          rw [hXd, heq]
          rfl
        · have h1 : idx + 1 ≤ i % step := by omega
          have h2 : idx ≤ i % step := by omega
          rw [if_pos h1, if_pos h2]
      · rw [if_neg h, if_neg h]

/-- If the implied function never fails, the loop never fails. -/
lemma ewLoop_isOk [Inhabited α] (fn : Sel → List α → Except String (List α))
    (X : List α) (step : Nat) (hfn : ∀ s xs, (fn s xs).isOk = true) :
    ∀ (rem idx : Nat) (res : List α),
      (ewLoop fn X step rem idx res).1.isOk = true := by
  intro rem
  induction rem with
  | zero => intro idx res; rfl
  | succ rem ih =>
      intro idx res
      rw [ewLoop]
      cases hcall : fn (Sel.idx idx) (pyStride X idx step) with
      | error e =>
          have := hfn (Sel.idx idx) (pyStride X idx step)
          rw [hcall] at this
          exact absurd this (by simp [Except.isOk, Except.toBool])
      | ok vals => exact ih (idx + 1) _

/-- If the loop returns normally, the final selector is the reset value. -/
lemma ewLoop_sel_of_isOk [Inhabited α]
    (fn : Sel → List α → Except String (List α)) (X : List α) (step : Nat) :
    ∀ (rem idx : Nat) (res : List α),
      (ewLoop fn X step rem idx res).1.isOk = true →
      (ewLoop fn X step rem idx res).2 = Sel.all := by
  intro rem
  induction rem with
  | zero => intro idx res _; rfl
  | succ rem ih =>
      intro idx res h
      rw [ewLoop] at h ⊢
      cases hcall : fn (Sel.idx idx) (pyStride X idx step) with
      | error e =>
          rw [hcall] at h
          exact absurd h (by simp [Except.isOk, Except.toBool])
      | ok vals =>
          rw [hcall] at h
          exact ih (idx + 1) _ h

end LoopLemmas

section DispatchLemmas

variable {α : Type} [Inhabited α]

/-- If an element-wise call starting from the reset selector returns
normally, the final selector is the reset value. -/
lemma elementWiseE_sel_of_isOk (fn : Sel → List α → Except String (List α))
    (m : Nat) (X : List α)
    (h : (elementWiseE fn m X Sel.all).1.isOk = true) :
    (elementWiseE fn m X Sel.all).2 = Sel.all := by
  rw [elementWiseE] at h ⊢
  by_cases hn : dim X = 1
  · simp [hn]
  · rw [if_neg hn] at h ⊢
    exact ewLoop_sel_of_isOk fn X _ _ _ _ h

/-- If the implied function never fails, an element-wise call never
fails. -/
lemma elementWiseE_isOk (fn : Sel → List α → Except String (List α))
    (m : Nat) (X : List α) (c0 : Sel)
    (hfn : ∀ s xs, (fn s xs).isOk = true) :
    (elementWiseE fn m X c0).1.isOk = true := by
  rw [elementWiseE]
  by_cases hn : dim X = 1
  · simp only [hn, if_pos]
    exact hfn c0 X
  · rw [if_neg hn]
    exact ewLoop_isOk fn X _ hfn _ _ _

end DispatchLemmas

/-- Pointwise evaluation rule of a concrete two-distribution family used as
a test instance: distribution k maps a sample x to x + 10 * (k + 1). -/
def gW (k : Nat) (x : Int) : Int :=
  x + 10 * (Int.ofNat k + 1)

/-- Implied evaluation method of the test family, as a concrete subclass
would implement it through get_cached_param: under an integer selector it
evaluates its own distribution pointwise on the samples; under the full
selector with a single sample it evaluates all distributions against that
sample (the m-times-1 batch output described at lines 59-60 of
distribution_base.py). -/
def fnW : Sel → List Int → Except String (List Int)
  | Sel.all, xs => Except.ok ((List.range 2).map (fun k => gW k (xs.headD 0)))
  | Sel.idx k, xs => Except.ok (xs.map (gW k))

/-- Test instance: a well-behaved vectorized distribution of size 2 in
element-wise mode, of MIXED type with the default accept-all support. -/
def wD : DistributionBase Int :=
  { dtype_ := distType.MIXED, vectorSize_ := 2, mode_ := Mode.ELEMENT_WISE,
    cached_index_ := Sel.all, support_ := fun _ => true,
    pdf_imp := fnW, pmf_imp := fnW, cdf_imp := fnW }

/-- Test instance: a size-2 element-wise distribution whose implied methods
raise on every call. -/
def errD : DistributionBase Int :=
  { dtype_ := distType.CONTINUOUS, vectorSize_ := 2, mode_ := Mode.ELEMENT_WISE,
    cached_index_ := Sel.all, support_ := fun _ => true,
    pdf_imp := fun _ _ => Except.error "boom",
    pmf_imp := fun _ _ => Except.error "boom",
    cdf_imp := fun _ _ => Except.error "boom" }

/-- Test instance: a batch-mode continuous distribution whose support
predicate rejects every query point. -/
def noSupD : DistributionBase Int :=
  { dtype_ := distType.CONTINUOUS, vectorSize_ := 2, mode_ := Mode.BATCH,
    cached_index_ := Sel.all, support_ := fun _ => false,
    pdf_imp := fnW, pmf_imp := fnW, cdf_imp := fnW }

/-- C1 counterexample: the claim states the selector is reset to
slice(None) after every functional call, including on error.  On the
instance errD, whose implied pdf raises inside the element-wise loop, pdf
of the two-point query [0, 1] propagates the error and leaves the
cached_index_ selector at the failing integer index 0, not at the reset
value: the loop of elementWiseDecorator has no try/finally and reset()
runs only after a normally completed loop. -/
theorem c1_counterexample :
    (errD.pdf [0, 1]).1.isOk = false ∧ (errD.pdf [0, 1]).2 = Sel.idx 0 ∧
      (errD.pdf [0, 1]).2 ≠ Sel.all := by
  decide

/-- C1 amended: for a distribution whose selector starts at the reset
value slice(None), a pdf, pmf or cdf call that returns normally ends with
the selector reset to slice(None); nothing is guaranteed when the call
raises. -/
theorem c1_selector_reset_on_normal_return (d : DistributionBase Int)
    (X : List Int) (h0 : d.cached_index_ = Sel.all) :
    ((d.pdf X).1.isOk = true → (d.pdf X).2 = Sel.all) ∧
    ((d.pmf X).1.isOk = true → (d.pmf X).2 = Sel.all) ∧
    ((d.cdf X).1.isOk = true → (d.cdf X).2 = Sel.all) := by
  refine ⟨fun h => ?_, fun h => ?_, fun h => ?_⟩
  · rw [DistributionBase.pdf] at h ⊢
    split_ifs at h ⊢ with h1 h2 h3
    · exact h0
    · exact h0
    · rw [h0] at h ⊢
      exact elementWiseE_sel_of_isOk _ _ _ h
    · exact h0
  · rw [DistributionBase.pmf] at h ⊢
    split_ifs at h ⊢ with h1 h2 h3
    · exact h0
    · exact h0
    · rw [h0] at h ⊢
      exact elementWiseE_sel_of_isOk _ _ _ h
    · exact h0
  · rw [DistributionBase.cdf] at h ⊢
    split_ifs at h ⊢ with h1
    · rw [h0] at h ⊢
      exact elementWiseE_sel_of_isOk _ _ _ h
    · exact h0

/-- C1 witness: on the well-behaved instance wD the three functional calls
return normally and the selector ends reset. -/
theorem c1_selector_reset_on_normal_return_witness :
    (wD.pdf [0, 1, 2]).2 = Sel.all ∧ (wD.pmf [0, 1, 2]).2 = Sel.all ∧
      (wD.cdf [0, 1, 2]).2 = Sel.all := by
  have h := c1_selector_reset_on_normal_return wD [0, 1, 2] rfl
  exact ⟨h.1 (by decide), h.2.1 (by decide), h.2.2 (by decide)⟩

/-- C4 counterexample: the claim states that for every n, including n = 1,
an element-wise functional call on n points returns a flat length-n result
pairing point i with distribution i mod m.  On the size-2 instance wD in
element-wise mode, the single-point query [5] takes the n = 1 early-return
of the decorator, which calls the implied method under the full selector:
the result is the batch-shaped two-entry vector [15, 25], not a length-1
result holding only distribution 0 evaluated at the point. -/
theorem c4_counterexample :
    (wD.pdf [5]).1 = Except.ok [15, 25] ∧ ([15, 25] : List Int).length ≠ 1 :=
  ⟨rfl, by decide⟩

/-- C4 amended: for every query of n greater than 1 points against m
distributions (m at least 1), an element-wise evaluation whose implied
method computes pointwise returns normally, resets the selector, and
produces the flat length-n result whose i-th entry is distribution
i mod min(m, n) evaluated at point i (equal to i mod m when n is at least
m, and to i when n is below m); for n = 1 the decorator instead falls
through to the implied method under the current selector. -/
theorem c4_elementwise_pairing {α : Type} [Inhabited α]
    (fn : Sel → List α → Except String (List α)) (g : Nat → α → α)
    (m : Nat) (X : List α) (c0 : Sel) (hm : 1 ≤ m) (hn : 2 ≤ X.length)
    (hg : ∀ k xs, fn (Sel.idx k) xs = Except.ok (xs.map (g k))) :
    elementWiseE fn m X c0 =
      (Except.ok ((List.range X.length).map
        (fun i => g (i % min m X.length) (X.getD i default))), Sel.all) := by
  rw [elementWiseE]
  have hd : dim X ≠ 1 := by
    rw [dim]
    omega
  rw [if_neg hd]
  have hstep : 1 ≤ min m (dim X) := by
    rw [dim]
    omega
  rw [ewLoop_spec fn g X (min m (dim X)) hstep hg (min m (dim X)) 0
    (List.replicate (dim X) default) (by omega) (by rw [List.length_replicate]; rfl)]
  refine congrArg (fun l => (Except.ok l, Sel.all)) ?_
  rw [ewMerge, dim]
  exact List.map_congr_left fun i _ => by rw [if_pos (Nat.zero_le _)]

/-- C4 witness: the amended pairing evaluated on the concrete family fnW
with m = 2 distributions and n = 3 points. -/
theorem c4_elementwise_pairing_witness :
    elementWiseE fnW 2 ([3, 4, 5] : List Int) Sel.all =
      (Except.ok ((List.range ([3, 4, 5] : List Int).length).map
        (fun i => gW (i % min 2 ([3, 4, 5] : List Int).length)
          (([3, 4, 5] : List Int).getD i default))), Sel.all) :=
  c4_elementwise_pairing fnW gW 2 [3, 4, 5] Sel.all (by decide) (by decide)
    (fun k xs => rfl)

/-- C5 confirmed: when the query array holds exactly one point, each of
pdf, pmf and cdf returns the same result in BATCH mode as in ELEMENT_WISE
mode: the n = 1 early-return of the decorator calls the implied method
exactly as the batch branch does. -/
theorem c5_mode_equiv_single_point {α : Type} [Inhabited α]
    (d : DistributionBase α) (X : List α) (h : dim X = 1) :
    ({ d with mode_ := Mode.BATCH }.pdf X).1 =
      ({ d with mode_ := Mode.ELEMENT_WISE }.pdf X).1 ∧
    ({ d with mode_ := Mode.BATCH }.pmf X).1 =
      ({ d with mode_ := Mode.ELEMENT_WISE }.pmf X).1 ∧
    ({ d with mode_ := Mode.BATCH }.cdf X).1 =
      ({ d with mode_ := Mode.ELEMENT_WISE }.cdf X).1 := by
  refine ⟨?_, ?_, ?_⟩ <;>
    simp [DistributionBase.pdf, DistributionBase.pmf, DistributionBase.cdf,
      elementWiseE, h]

/-- C5 witness: mode equivalence evaluated on the concrete instance wD at
the single-point query [7]. -/
theorem c5_mode_equiv_single_point_witness :
    ({ wD with mode_ := Mode.BATCH }.pdf [7]).1 =
      ({ wD with mode_ := Mode.ELEMENT_WISE }.pdf [7]).1 ∧
    ({ wD with mode_ := Mode.BATCH }.pmf [7]).1 =
      ({ wD with mode_ := Mode.ELEMENT_WISE }.pmf [7]).1 ∧
    ({ wD with mode_ := Mode.BATCH }.cdf [7]).1 =
      ({ wD with mode_ := Mode.ELEMENT_WISE }.cdf [7]).1 :=
  c5_mode_equiv_single_point wD [7] rfl

/-- C6 counterexample: the claim states that every functional, cdf
included, fails when the query point is outside the support predicate.  On
the instance noSupD, whose support predicate rejects everything, cdf of
[3] still returns a result: DistributionBase.cdf performs no support
check. -/
theorem c6_counterexample :
    noSupD.support_ [3] = false ∧ (noSupD.cdf [3]).1.isOk = true := by
  decide

/-- C6 amended: when the query is outside the support predicate, pdf and
pmf fail (with the message X is outside permitted support, which does not
name the offending coordinate) and no result is returned, while cdf
ignores the support predicate entirely: its result is unchanged under any
replacement of the support object. -/
theorem c6_support_gate {α : Type} [Inhabited α] (d : DistributionBase α)
    (X : List α) (h : d.support_ X = false) :
    (d.pdf X).1.isOk = false ∧ (d.pmf X).1.isOk = false ∧
    (∀ s : List α → Bool, ({ d with support_ := s }.cdf X) = d.cdf X) := by
  refine ⟨?_, ?_, fun s => ?_⟩
  · rw [DistributionBase.pdf]
    by_cases h1 : d.dtype_ = distType.DISCRETE ∨ d.dtype_ = distType.UNDEFINED
    · rw [if_pos h1]
      rfl
    · rw [if_neg h1, if_pos h]
      rfl
  · rw [DistributionBase.pmf]
    by_cases h1 : d.dtype_ = distType.CONTINUOUS ∨ d.dtype_ = distType.UNDEFINED
    · rw [if_pos h1]
      rfl
    · rw [if_neg h1, if_pos h]
      rfl
  · rw [DistributionBase.cdf, DistributionBase.cdf]

/-- C6 witness: the support gate evaluated on the rejecting instance
noSupD at the query [3]. -/
theorem c6_support_gate_witness :
    (noSupD.pdf [3]).1.isOk = false ∧ (noSupD.pmf [3]).1.isOk = false ∧
    (∀ s : List Int → Bool, ({ noSupD with support_ := s }.cdf [3]) =
      noSupD.cdf [3]) :=
  c6_support_gate noSupD [3] rfl

/-- C7 confirmed: with an in-support query and implied methods that never
fail, pdf succeeds exactly when the distribution type is CONTINUOUS or
MIXED (raising for DISCRETE and UNDEFINED), and pmf succeeds exactly when
the type is DISCRETE or MIXED (raising for CONTINUOUS and UNDEFINED). -/
theorem c7_dtype_gates {α : Type} [Inhabited α] (d : DistributionBase α)
    (X : List α) (hsup : d.support_ X = true)
    (hpdf : ∀ s xs, (d.pdf_imp s xs).isOk = true)
    (hpmf : ∀ s xs, (d.pmf_imp s xs).isOk = true) :
    ((d.pdf X).1.isOk = true ↔
        d.dtype_ = distType.CONTINUOUS ∨ d.dtype_ = distType.MIXED) ∧
    ((d.pmf X).1.isOk = true ↔
        d.dtype_ = distType.DISCRETE ∨ d.dtype_ = distType.MIXED) := by
  have hsup' : ¬ d.support_ X = false := by rw [hsup]; simp
  constructor
  · rw [DistributionBase.pdf]
    cases hd : d.dtype_ with
    | UNDEFINED =>
        rw [if_pos (Or.inr rfl)]
        simp [Except.isOk, Except.toBool]
    | DISCRETE =>
        rw [if_pos (Or.inl rfl)]
        simp [Except.isOk, Except.toBool]
    | CONTINUOUS =>
        rw [if_neg (by simp), if_neg hsup']
        refine iff_of_true ?_ (Or.inl rfl)
        split_ifs with hm
        · exact elementWiseE_isOk _ _ _ _ hpdf
        · exact hpdf _ _
    | MIXED =>
        rw [if_neg (by simp), if_neg hsup']
        refine iff_of_true ?_ (Or.inr rfl)
        split_ifs with hm
        · exact elementWiseE_isOk _ _ _ _ hpdf
        · exact hpdf _ _
  · rw [DistributionBase.pmf]
    cases hd : d.dtype_ with
    | UNDEFINED =>
        rw [if_pos (Or.inr rfl)]
        simp [Except.isOk, Except.toBool]
    | CONTINUOUS =>
        rw [if_pos (Or.inl rfl)]
        simp [Except.isOk, Except.toBool]
    | DISCRETE =>
        rw [if_neg (by simp), if_neg hsup']
        refine iff_of_true ?_ (Or.inl rfl)
        split_ifs with hm
        · exact elementWiseE_isOk _ _ _ _ hpmf
        · exact hpmf _ _
    | MIXED =>
        rw [if_neg (by simp), if_neg hsup']
        refine iff_of_true ?_ (Or.inr rfl)
        split_ifs with hm
        · exact elementWiseE_isOk _ _ _ _ hpmf
        · exact hpmf _ _

/-- C7 witness: the gates evaluated on the MIXED-type instance wD, whose
implied methods never fail, at the in-support query [1, 2]. -/
theorem c7_dtype_gates_witness :
    ((wD.pdf [1, 2]).1.isOk = true ↔
        wD.dtype_ = distType.CONTINUOUS ∨ wD.dtype_ = distType.MIXED) ∧
    ((wD.pmf [1, 2]).1.isOk = true ↔
        wD.dtype_ = distType.DISCRETE ∨ wD.dtype_ = distType.MIXED) :=
  c7_dtype_gates wD [1, 2] rfl (fun s xs => by cases s <;> rfl)
    (fun s xs => by cases s <;> rfl)

/-- C10 confirmed: constructing with a value that is not a Mode member
(modelled by none) does not raise and silently sets the evaluation mode to
ELEMENT_WISE, which differs from the documented BATCH default, whereas
setMode with the same value raises ValueError. -/
theorem c10_invalid_mode_handling (vs vts : Nat) (h1 : 1 ≤ vs) (h2 : 1 ≤ vts) :
    distInit vs vts none = Except.ok (Sel.all, Mode.ELEMENT_WISE) ∧
    initMode none ≠ Mode.BATCH ∧
    (∀ d : DistributionBase Int,
      d.setMode none = Except.error "unrecognize distribution mode") := by
  refine ⟨?_, by decide, fun d => rfl⟩
  rw [distInit, if_neg (by omega), if_neg (by omega)]
  rfl

/-- C10 witness: the constructor and setMode behavior at the smallest valid
sizes and on the concrete instance wD. -/
theorem c10_invalid_mode_handling_witness :
    distInit 1 1 none = Except.ok (Sel.all, Mode.ELEMENT_WISE) ∧
    initMode none ≠ Mode.BATCH ∧
    wD.setMode none = Except.error "unrecognize distribution mode" := by
  have h := c10_invalid_mode_handling 1 1 (by decide) (by decide)
  exact ⟨h.1, h.2.1, h.2.2 wD⟩

section SubsetLemmas

variable {β : Type}

/-- mapExcept succeeds exactly when every element succeeds. -/
lemma mapExcept_isOk {γ : Type} (f : β → Except String γ) :
    ∀ l : List β, (mapExcept f l).isOk = true ↔ ∀ x ∈ l, (f x).isOk = true := by
  intro l
  induction l with
  | nil => simp [mapExcept, Except.isOk, Except.toBool]
  | cons x xs ih =>
      constructor
      · intro h z hz
        cases hfx : f x with
        | error e =>
            rw [mapExcept, hfx] at h
            simp [Except.isOk, Except.toBool] at h
        | ok y =>
            cases hm : mapExcept f xs with
            | error e =>
                rw [mapExcept, hfx, hm] at h
                simp [Except.isOk, Except.toBool] at h
            | ok ys =>
                rcases List.mem_cons.mp hz with hzx | hzxs
                · rw [hzx, hfx]
                  rfl
                · exact (ih.mp (by rw [hm]; rfl)) z hzxs
      · intro h
        have hx := h x (List.mem_cons_self x xs)
        have hxs : (mapExcept f xs).isOk = true :=
          ih.mpr fun z hz => h z (List.mem_cons_of_mem x hz)
        cases hfx : f x with
        | error e =>
            rw [hfx] at hx
            simp [Except.isOk, Except.toBool] at hx
        | ok y =>
            cases hm : mapExcept f xs with
            | error e =>
                rw [hm] at hxs
                simp [Except.isOk, Except.toBool] at hxs
            | ok ys =>
                rw [mapExcept, hfx, hm]
                rfl

/-- Python indexing succeeds exactly on positions in [-len, len). -/
lemma pyIndex_isOk (p : List β) (k : Int) :
    (pyIndex p k).isOk = true ↔
      -(p.length : Int) ≤ k ∧ k < (p.length : Int) := by
  rw [pyIndex]
  by_cases h1 : (if k < 0 then (p.length : Int) + k else k) < 0
  · rw [if_pos h1]
    simp only [Except.isOk, Except.toBool, Bool.false_eq_true, false_iff]
    intro hc
    split_ifs at h1 <;> omega
  · rw [if_neg h1]
    push_neg at h1
    cases hget : p[(if k < 0 then (p.length : Int) + k else k).toNat]? with
    | some v =>
        simp only [hget]
        have hlt := (List.getElem?_eq_some.mp hget).1
        simp only [Except.isOk, Except.toBool, true_iff]
        split_ifs at h1 hlt <;> omega
    | none =>
        simp only [hget]
        rw [List.getElem?_eq_none_iff] at hget
        simp only [Except.isOk, Except.toBool, Bool.false_eq_true, false_iff]
        intro hc
        split_ifs at h1 hget <;> omega

/-- Wrapping a result through an error-propagating match preserves
success. -/
lemma wrapSingleton_isOk (p : List β) (k : Int) :
    ((match pyIndex p k with
      | Except.error e => Except.error e
      | Except.ok v => Except.ok [v]) : Except String (List β)).isOk =
      (pyIndex p k).isOk := by
  cases pyIndex p k <;> rfl

/-- The integer selection of the parameter store succeeds exactly when the
position is valid for every registered parameter list. -/
lemma getSubset_int_isOk (params : List (List β)) (k : Int) :
    (getSubset params (Selection.intSel k)).isOk = true ↔
      ∀ p ∈ params, -(p.length : Int) ≤ k ∧ k < (p.length : Int) := by
  rw [getSubset, mapExcept_isOk]
  constructor
  · intro h p hp
    have hpk := h p hp
    rw [wrapSingleton_isOk, pyIndex_isOk] at hpk
    exact hpk
  · intro h p hp
    rw [wrapSingleton_isOk, pyIndex_isOk]
    exact h p hp

end SubsetLemmas

/-- Test instance for subsetting: a vectorized distribution of size 2 with
one registered parameter list. -/
def cDemo : ConcreteDist Int :=
  { vectorSize_ := 2, params_ := [[1, 2]], cached_index_ := Sel.all }

/-- C8 counterexample: the claim states a slice raises exactly when its
stop exceeds the length m, so the full slice with stop equal to m must
succeed, and an integer raises exactly when outside [0, m).  On the
length-2 instance cDemo, the slice 0:2 raises (the source rejects
index.stop greater than or equal to len(self)), while the negative integer
selector -1 succeeds (the source only rejects selection greater than or
equal to len(self)). -/
theorem c8_counterexample :
    getitem cDemo (PySel.sliceIdx 0 2) =
      Except.error "Selection is out of bounds" ∧
    (getitem cDemo (PySel.intIdx (-1))).isOk = true := by
  constructor
  · rfl
  · rfl

/-- C8 amended: for a distribution of length m with registered parameter
lists of length m, an integer selector k raises exactly when k is at least
m or below -m (in-range negative indices wrap Python-style instead of
being rejected); a slice raises exactly when its stop is at least m, so
the full slice with stop m is rejected too; every successful subset is a
fresh object whose selector is the reset value slice(None). -/
theorem c8_getitem_bounds {α : Type} (d : ConcreteDist α)
    (hne : d.params_ ≠ [])
    (hwf : ∀ p ∈ d.params_, p.length = d.vectorSize_) :
    (∀ k : Int, (getitem d (PySel.intIdx k)).isOk = true ↔
      -(d.vectorSize_ : Int) ≤ k ∧ k < (d.vectorSize_ : Int)) ∧
    (∀ a b : Int, (getitem d (PySel.sliceIdx a b)).isOk = true ↔
      b < (d.vectorSize_ : Int)) ∧
    (∀ idx : PySel, ∀ r : ConcreteDist α,
      getitem d idx = Except.ok r → r.cached_index_ = Sel.all) := by
  refine ⟨fun k => ?_, fun a b => ?_, fun idx r h => ?_⟩
  · simp only [getitem]
    by_cases hk : (d.vectorSize_ : Int) ≤ k
    · rw [if_pos (by simpa using hk)]
      exact iff_of_false (by simp [Except.isOk, Except.toBool]) (by omega)
    · rw [if_neg (by simpa using hk), if_neg (by simp)]
      cases hsub : getSubset d.params_ (Selection.intSel k) with
      | error e =>
          have hno : ¬ (getSubset d.params_ (Selection.intSel k)).isOk = true := by
            rw [hsub]
            simp [Except.isOk, Except.toBool]
          rw [getSubset_int_isOk] at hno
          simp only [hsub]
          refine iff_of_false (by simp [Except.isOk, Except.toBool]) fun hc => ?_
          exact hno fun p hp => by rw [hwf p hp]; exact hc
      | ok ps =>
          have hok : (getSubset d.params_ (Selection.intSel k)).isOk = true := by
            rw [hsub]
            rfl
          rw [getSubset_int_isOk] at hok
          obtain ⟨p0, hp0⟩ := List.exists_mem_of_ne_nil d.params_ hne
          have hb := hok p0 hp0
          rw [hwf p0 hp0] at hb
          simp only [hsub]
          exact iff_of_true rfl hb
  · simp only [getitem]
    by_cases hb : (d.vectorSize_ : Int) ≤ b
    · rw [if_neg (by simp), if_pos (by simpa using hb)]
      exact iff_of_false (by simp [Except.isOk, Except.toBool]) (by omega)
    · rw [if_neg (by simp), if_neg (by simpa using hb)]
      exact iff_of_true rfl (by omega)
  · cases idx with
    | noneIdx =>
        simp only [getitem, getSubset] at h
        injection h with h'
        rw [← h']
    | strIdx s =>
        simp only [getitem, getSubset] at h
        injection h with h'
        rw [← h']
    | intIdx k =>
        simp only [getitem] at h
        by_cases hk : (d.vectorSize_ : Int) ≤ k
        · rw [if_pos (by simpa using hk)] at h
          exact absurd h (by simp)
        · rw [if_neg (by simpa using hk), if_neg (by simp)] at h
          cases hsub : getSubset d.params_ (Selection.intSel k) with
          | error e =>
              rw [hsub] at h
              exact absurd h (by simp)
          | ok ps =>
              rw [hsub] at h
              injection h with h'
              rw [← h']
    | sliceIdx a b =>
        simp only [getitem] at h
        by_cases hb : (d.vectorSize_ : Int) ≤ b
        · rw [if_neg (by simp), if_pos (by simpa using hb)] at h
          exact absurd h (by simp)
        · rw [if_neg (by simp), if_neg (by simpa using hb)] at h
          simp only [getSubset] at h
          injection h with h'
          rw [← h']

/-- C8 witness: the amended bounds evaluated on the concrete length-2
instance cDemo. -/
theorem c8_getitem_bounds_witness :
    ((getitem cDemo (PySel.intIdx 0)).isOk = true ↔
      -(cDemo.vectorSize_ : Int) ≤ 0 ∧ (0 : Int) < (cDemo.vectorSize_ : Int)) ∧
    ((getitem cDemo (PySel.sliceIdx 0 1)).isOk = true ↔
      (1 : Int) < (cDemo.vectorSize_ : Int)) ∧
    ({ vectorSize_ := 1, params_ := [[2]],
       cached_index_ := Sel.all } : ConcreteDist Int).cached_index_ = Sel.all := by
  have h := c8_getitem_bounds cDemo (by decide) (by decide)
  exact ⟨h.1 0, h.2.1 0 1, h.2.2 (PySel.intIdx 1) _ (by rfl)⟩

/-- C2: the claim states ppf(cdf(x)) equals x for every x strictly inside
the support, for all mu and positive scale.  For mu = 0, scale = 1 and the
in-support point x = -log 2, the source cdf evaluates to 1/4, but the
source ppf (whose sign factor is sign(p - mu) instead of sign(p - 1/2))
maps 1/4 to +log 2, not back to -log 2: the round trip fails although ppf
is documented as the inverse cdf and tagged as an exact capability. -/
theorem c2_laplace_roundtrip_fails :
    laplace_cdf 0 1 (-Real.log 2) = 1 / 4 ∧
    laplace_ppf 0 1 (laplace_cdf 0 1 (-Real.log 2)) = Real.log 2 ∧
    laplace_ppf 0 1 (laplace_cdf 0 1 (-Real.log 2)) ≠ -Real.log 2 := by
  have hlog : (0 : ℝ) < Real.log 2 := Real.log_pos (by norm_num)
  have h1 : laplace_cdf 0 1 (-Real.log 2) = 1 / 4 := by
    rw [laplace_cdf]
    have ha : (-Real.log 2 - 0) / 1 = -Real.log 2 := by ring
    have hb : Real.sign (-Real.log 2 - 0) = -1 := by
      rw [show -Real.log 2 - 0 = -Real.log 2 by ring]
      exact Real.sign_of_neg (by linarith)
    rw [ha, hb, abs_neg, abs_of_pos hlog, Real.exp_neg,
      Real.exp_log (by norm_num : (0 : ℝ) < 2)]
    norm_num
  have h2 : laplace_ppf 0 1 (1 / 4) = Real.log 2 := by
    rw [laplace_ppf]
    have ha : Real.sign ((1 : ℝ) / 4 - 0) = 1 := Real.sign_of_pos (by norm_num)
    have hb : (1 : ℝ) - 2 * |(1 : ℝ) / 4 - 0.5| = 1 / 2 := by
      rw [show (1 : ℝ) / 4 - 0.5 = -(1 / 4) by norm_num, abs_neg,
        abs_of_pos (by norm_num : (0 : ℝ) < 1 / 4)]
      norm_num
    rw [ha, hb, show (1 : ℝ) / 2 = 2⁻¹ by norm_num, Real.log_inv]
    ring
  refine ⟨h1, by rw [h1, h2], ?_⟩
  rw [h1, h2]
  intro hcontra
  linarith

/-- C3: the claim states var() is 2 times scale squared entry-wise, equal
to 2 for scale 1, and pdf at x = mu is 1/(2 scale).  The source var
computes (scale / sqrt 2) squared, which is scale squared over 2: at
scale 1 every entry is 1/2, not the claimed 2 (the pdf part of the claim
does hold). -/
theorem c3_laplace_var_and_pdf :
    (∀ s : ℝ, laplace_var s = s ^ 2 / 2) ∧
    laplace_var 1 = 1 / 2 ∧ laplace_var 1 ≠ 2 ∧
    (∀ mu s : ℝ, laplace_pdf mu s mu = 1 / (2 * s)) := by
  have hvar : ∀ s : ℝ, laplace_var s = s ^ 2 / 2 := by
    intro s
    rw [laplace_var, div_pow, Real.sq_sqrt (by norm_num : (0 : ℝ) ≤ 2)]
  refine ⟨hvar, ?_, ?_, fun mu s => ?_⟩
  · rw [hvar]
    norm_num
  · rw [hvar]
    norm_num
  · rw [laplace_pdf]
    have : (mu - mu) / s = 0 := by
      rw [sub_self, zero_div]
    rw [this, abs_zero, neg_zero, Real.exp_zero]

/-- C9: the claim states the IID wrapper delegates pdf (and the other
functionals) to the wrapped distribution's own closed forms for every
family.  The source IID._pdf instead hardcodes the Normal density over
broadcast parameters named mu and sigma: wrapping Laplace(mu 0, scale 1)
and evaluating at 0 yields the Normal value 1/sqrt(2 pi), which differs
from the wrapped Laplace density 1/2. -/
theorem c9_iid_pdf_not_delegating :
    IID_pdf 0 1 0 = 1 / Real.sqrt (2 * Real.pi) ∧
    laplace_pdf 0 1 0 = 1 / 2 ∧
    IID_pdf 0 1 0 ≠ laplace_pdf 0 1 0 := by
  have h1 : IID_pdf 0 1 0 = 1 / Real.sqrt (2 * Real.pi) := by
    rw [IID_pdf]
    norm_num
  have h2 : laplace_pdf 0 1 0 = 1 / 2 := by
    rw [laplace_pdf]
    norm_num
  have hs : (2 : ℝ) < Real.sqrt (2 * Real.pi) := by
    have h4 : (2 : ℝ) = Real.sqrt 4 := by
      rw [show (4 : ℝ) = 2 ^ 2 by norm_num, Real.sqrt_sq (by norm_num : (0 : ℝ) ≤ 2)]
    rw [h4]
    exact Real.sqrt_lt_sqrt (by norm_num) (by nlinarith [Real.pi_gt_three])
  refine ⟨h1, h2, ?_⟩
  rw [h1, h2]
  intro hcontra
  have hpos : (0 : ℝ) < Real.sqrt (2 * Real.pi) := by linarith
  rw [div_eq_div_iff (by linarith : Real.sqrt (2 * Real.pi) ≠ 0)
    (by norm_num : (2 : ℝ) ≠ 0)] at hcontra
  linarith

end Skpro
